import Mathlib

/-!
Shallow embedding of the VeriDex repository-depth engine
(src/engines/github_code_engine.py) and proofs about it.

Conventions of the embedding:
- Python strings are Lean Strings; str.lower, str.endswith and the
  substring test (Python in) are embedded over the character list of
  the string.
- Python dicts whose insertion order matters (the collections.Counter
  built by detect_languages) are embedded as association lists kept in
  insertion order.
- all integers in the engine are non-negative counts, embedded as Nat.
- remote calls (the GitHub API) are oracles: the data a successful call
  would return is part of the input, and a failing call is an
  Except.error, mirroring the exception the source raises.
-/

namespace Veridex

/-- Embedding of Python str.lower, character by character (paths and
extensions in the engine are ASCII). -/
def strLower (s : String) : String := ⟨s.data.map Char.toLower⟩

/-- Embedding of Python str.endswith: suffix test on the characters. -/
def strEndsWith (s suf : String) : Bool := suf.data.isSuffixOf s.data

/-- Contiguous-occurrence test on character lists, the meaning of the
Python substring operator. -/
def containsSub (hay needle : List Char) : Bool :=
  match hay with
  | [] => needle.isEmpty
  | c :: t => needle.isPrefixOf (c :: t) || containsSub t needle

/-- Embedding of the Python substring test (sub in s). -/
def strContains (s sub : String) : Bool := containsSub s.data sub.data

/-- Extension table EXT_LANG (source lines 17-33), in source order: a
Python dict literal iterates in insertion order, which is the textual
order of the entries. -/
def EXT_LANG : List (String × String) :=
  [(".py", "Python"), (".js", "JavaScript"), (".ts", "TypeScript"),
   (".jsx", "JavaScript"), (".tsx", "TypeScript"), (".dart", "Dart"),
   (".html", "HTML"), (".css", "CSS"), (".scss", "CSS"),
   (".json", "JSON"), (".yml", "YAML"), (".yaml", "YAML"),
   (".md", "Markdown"), (".sh", "Shell"), (".sql", "SQL")]

/-- CODE_EXTS (source line 35): the keys of EXT_LANG minus the four
documentation and configuration formats. -/
def CODE_EXTS : List String :=
  (EXT_LANG.map Prod.fst).filter
    (fun k => !([".md", ".json", ".yml", ".yaml"].contains k))

/-- Inner loop of detect_languages (source lines 147-150): the language
of the FIRST entry of EXT_LANG whose extension is a suffix of the
lowercased path (the loop breaks at the first match); none when no
entry matches. -/
def classify (p : String) : Option String :=
  (EXT_LANG.find? (fun el => strEndsWith (strLower p) el.1)).map Prod.snd

/-- Counter increment counts[lang] += 1: bump the count of lang,
inserting it at the end of the association list on first occurrence
(Python dict and Counter insertion-order semantics). -/
def bump (h : List (String × Nat)) (lang : String) : List (String × Nat) :=
  match h with
  | [] => [(lang, 1)]
  | (l, c) :: t => if l = lang then (l, c + 1) :: t else (l, c) :: bump t lang

/-- GitHubCodeEngine.detect_languages (source lines 140-151): language
histogram from extensions, as an association list in insertion order. -/
def detect_languages (files : List String) : List (String × Nat) :=
  files.foldl
    (fun h p =>
      match classify p with
      | some lang => bump h lang
      | none => h) []

/-- GitHubCodeEngine.dominant_language (source lines 153-156): Python
max over the dict items with key = count; max replaces its best element
only on a strictly greater key, so the first maximal item in iteration
order wins. -/
def dominant_language (lang_counts : List (String × Nat)) : String :=
  match lang_counts with
  | [] => "Unknown"
  | x :: rest => (rest.foldl (fun best kv => if kv.2 > best.2 then kv else best) x).1

/-- Metric vector: the union of the keys the per-language analysers can
produce.  Python reads metrics with metrics.get(k, 0), so a key absent
from a given dict is the 0 default of the corresponding field. -/
structure Metrics where
  lines : Nat := 0
  functions : Nat := 0
  classes : Nat := 0
  imports : Nat := 0
  try_blocks : Nat := 0
  except_blocks : Nat := 0
  comment_lines : Nat := 0
  docstrings : Nat := 0
  api_calls : Nat := 0
  databases : Nat := 0
  frameworks : Nat := 0
  async_code : Nat := 0
  tags : Nat := 0
  selectors : Nat := 0
  deriving Repr, DecidableEq

/-- Python-branch bonuses of score_repo (source lines 232-241); each
Python statement score += b under a condition becomes an addend
(if cond then b else 0).  The comment floor int(lines * 0.05) equals
lines * 5 / 100 in exact integer arithmetic: the fractional part of the
true product is a multiple of 0.05, far above the 1e-16 float rounding
error, so float truncation and integer division agree. -/
def python_bonus (m : Metrics) : Nat :=
  (if m.functions ≥ 5 then 10 else 0)
  + (if m.classes ≥ 2 then 10 else 0)
  + (if m.imports ≥ 5 then 10 else 0)
  + (if m.frameworks ≥ 1 then 10 else 0)
  + (if m.databases ≥ 1 then 10 else 0)
  + (if m.api_calls ≥ 3 then 5 else 0)
  + (if m.async_code ≥ 2 then 5 else 0)
  + (if m.try_blocks ≥ 2 then 10 else 0)
  + (if m.comment_lines ≥ max 8 (m.lines * 5 / 100) then 10 else 0)

/-- JavaScript/TypeScript-branch bonuses of score_repo (source lines
243-249); int(lines * 0.04) equals lines * 4 / 100 exactly, as for the
Python floor. -/
def js_ts_bonus (m : Metrics) : Nat :=
  (if m.imports ≥ 5 then 10 else 0)
  + (if m.classes ≥ 1 then 5 else 0)
  + (if m.frameworks ≥ 1 then 10 else 0)
  + (if m.api_calls ≥ 2 then 10 else 0)
  + (if m.try_blocks ≥ 1 then 5 else 0)
  + (if m.comment_lines ≥ max 6 (m.lines * 4 / 100) then 5 else 0)

/-- Dart-branch bonuses of score_repo (source lines 251-256). -/
def dart_bonus (m : Metrics) : Nat :=
  (if m.imports ≥ 5 then 10 else 0)
  + (if m.classes ≥ 2 then 10 else 0)
  + (if m.frameworks ≥ 2 then 10 else 0)
  + (if m.async_code ≥ 2 then 5 else 0)
  + (if m.try_blocks ≥ 1 then 5 else 0)

/-- HTML/CSS-branch bonuses of score_repo (source lines 258-261). -/
def markup_bonus (m : Metrics) : Nat :=
  (if m.lines > 200 then 10 else 0)
  + (if m.tags ≥ 80 then 10 else 0)
  + (if m.selectors ≥ 50 then 10 else 0)

/-- Language dispatch of the if/elif chain in score_repo: any dominant
language outside the four recognised groups earns no language bonus. -/
def lang_bonus (dominant_lang : String) (m : Metrics) : Nat :=
  if dominant_lang = "Python" then python_bonus m
  else if dominant_lang = "JavaScript" ∨ dominant_lang = "TypeScript" then js_ts_bonus m
  else if dominant_lang = "Dart" then dart_bonus m
  else if dominant_lang = "HTML" ∨ dominant_lang = "CSS" then markup_bonus m
  else 0

/-- Pre-clamp value of GitHubCodeEngine.score_repo (source lines
217-261): base 20, plus the universal size, readme and test bonuses,
plus the language-specific bonuses. -/
def score_repo_raw (dominant_lang : String) (m : Metrics)
    (readme_score : Nat) (test_files : Nat) : Nat :=
  20
  + (if m.lines > 150 then 10 else 0)
  + (if m.lines > 600 then 10 else 0)
  + (if m.lines > 1500 then 10 else 0)
  + (if readme_score ≥ 10 then 5 else 0)
  + (if readme_score ≥ 15 then 5 else 0)
  + (if test_files ≥ 1 then 5 else 0)
  + (if test_files ≥ 5 then 5 else 0)
  + lang_bonus dominant_lang m

/-- GitHubCodeEngine.score_repo (source lines 213-263): the 0-100 depth
score, min(100, score) at the return. -/
def score_repo (dominant_lang : String) (m : Metrics)
    (readme_score : Nat) (test_files : Nat) : Nat :=
  min 100 (score_repo_raw dominant_lang m readme_score test_files)

/-- Remote directory entry as the contents API reports it inside a
directory listing: a type tag and a path.  A dir carries the outcome of
the recursive contents query for its own path (Except.error when that
remote call raises).  A type that is neither file nor dir (symlink,
submodule) is kept with its tag: the loop skips it. -/
inductive FsEntry where
  | file (path : String)
  | dir (path : String) (children : Except Unit (List FsEntry))
  | other (etype : String) (path : String)
  deriving Repr

/-- Result of the initial contents query of list_files: either a single
plain-file object (a dict of type file) or a list of entries. -/
inductive Listing where
  | singleFile (path : String)
  | entries (items : List FsEntry)
  deriving Repr

/-- Loop of GitHubCodeEngine.list_files (source lines 122-130) over the
entries of one listing: a file path is appended in listing order, a dir
is expanded depth-first before its later siblings, other types are
skipped, and a failing remote call aborts the whole walk with the
exception it raised. -/
def walkEntries : List FsEntry → Except Unit (List String)
  | [] => .ok []
  | FsEntry.file p :: rest =>
      match walkEntries rest with
      | .error e => .error e
      | .ok fs => .ok (p :: fs)
  | FsEntry.dir _ (Except.error e) :: _ => .error e
  | FsEntry.dir _ (Except.ok cs) :: rest =>
      match walkEntries cs with
      | .error e => .error e
      | .ok sub =>
          match walkEntries rest with
          | .error e => .error e
          | .ok fs => .ok (sub ++ fs)
  | FsEntry.other _ _ :: rest => walkEntries rest

/-- GitHubCodeEngine.list_files (source lines 105-130) on the outcome of
the initial contents query for the requested path: a failing query
raises, a single plain-file object short-circuits to a one-element
list, and a list of entries is walked recursively. -/
def list_files : Except Unit Listing → Except Unit (List String)
  | .error e => .error e
  | .ok (.singleFile p) => .ok [p]
  | .ok (.entries items) => walkEntries items

/-- Per-language metric extractors analyse_python, analyse_js_ts,
analyse_dart, analyse_html_css (source lines 160-209) work on raw file
text by regular-expression matching, and the fallback branch only
counts the lines of the text; no claim concerns their text-level
behaviour, so they enter the embedding as parameters, while the
dispatch between them inside analyse is embedded exactly. -/
structure CodeAnalyzers where
  analyse_python : String → Metrics
  analyse_js_ts : String → Metrics
  analyse_dart : String → Metrics
  analyse_html_css : String → String → Metrics
  splitlines_count : String → Nat

/-- Dispatch of analyse on the dominant language (source lines 337-347);
the fallback produces a lines-only metric dict. -/
def dispatch (A : CodeAnalyzers) (dom_lang : String) (code : String) : Metrics :=
  if dom_lang = "Python" then A.analyse_python code
  else if dom_lang = "JavaScript" ∨ dom_lang = "TypeScript" then A.analyse_js_ts code
  else if dom_lang = "Dart" then A.analyse_dart code
  else if dom_lang = "HTML" ∨ dom_lang = "CSS" then A.analyse_html_css code dom_lang
  else { lines := A.splitlines_count code }

/-- Merge loop of analyse (source lines 350-351): combined[k] =
combined.get(k, 0) + v for every key of the file metric dict; keys the
dict lacks stay at their 0 default, so the merge is field-wise sum. -/
def addMetrics (a b : Metrics) : Metrics :=
  { lines := a.lines + b.lines,
    functions := a.functions + b.functions,
    classes := a.classes + b.classes,
    imports := a.imports + b.imports,
    try_blocks := a.try_blocks + b.try_blocks,
    except_blocks := a.except_blocks + b.except_blocks,
    comment_lines := a.comment_lines + b.comment_lines,
    docstrings := a.docstrings + b.docstrings,
    api_calls := a.api_calls + b.api_calls,
    databases := a.databases + b.databases,
    frameworks := a.frameworks + b.frameworks,
    async_code := a.async_code + b.async_code,
    tags := a.tags + b.tags,
    selectors := a.selectors + b.selectors }

/-- Test-file predicate of analyse (source line 293): substring tests on
the lowercased path. -/
def is_test_path (p : String) : Bool :=
  strContains (strLower p) "test" || strContains (strLower p) "tests/"

/-- Inner helper match_dom of analyse (source lines 302-310): does a
path count as a code file for the dominant language. -/
def match_dom (dom_lang : String) (p : String) : Bool :=
  let lp := strLower p
  if dom_lang = "Python" then strEndsWith lp ".py"
  else if dom_lang = "TypeScript" then strEndsWith lp ".ts" || strEndsWith lp ".tsx"
  else if dom_lang = "JavaScript" then strEndsWith lp ".js" || strEndsWith lp ".jsx"
  else if dom_lang = "Dart" then strEndsWith lp ".dart"
  else if dom_lang = "HTML" then strEndsWith lp ".html"
  else if dom_lang = "CSS" then strEndsWith lp ".css" || strEndsWith lp ".scss"
  else CODE_EXTS.any (fun ext => strEndsWith lp ext)

/-- Remote data of one repository as analyse consumes it: the name, the
outcome of the list_files queries, the readme quality score that
fetch_readme plus analyse_readme produce for it (both fail soft and
analyse only reads the resulting quality_score integer, so the pair is
an oracle of the remote state), the outcome of fetch_file_content per
path, and the html_url field of the listing. -/
structure RepoInput where
  name : String
  listing : Except Unit Listing
  readme_score : Nat
  content : String → Except Unit String
  html_url : String

/-- One element of the repo_summaries list that analyse builds (source
lines 315-325 and 355-365). -/
structure RepoSummary where
  name : String
  dominant_language : String
  language_breakdown : List (String × Nat)
  code_files : Nat
  metrics : Metrics
  readme_quality : Nat
  test_files : Nat
  depth_score : Nat
  html_url : String
  deriving Repr, DecidableEq

/-- Return value of analyse: the repos list and the overall score. -/
structure AccountDepthResult where
  repos : List RepoSummary
  overall_depth_score : Nat
  deriving Repr, DecidableEq

/-- Body of the per-repository loop of analyse (source lines 278-365):
none when the tree walk raises (except: continue) or when the file list
is empty; otherwise the summary dict appended to repo_summaries.  The
combined metrics fold fetches at most the first 120 code files and a
failing fetch contributes nothing (try/except: continue). -/
def analyse_repo (A : CodeAnalyzers) (repo : RepoInput) : Option RepoSummary :=
  match list_files repo.listing with
  | .error _ => none
  | .ok files =>
    if files = [] then none
    else
      let lang_counts := detect_languages files
      let dom_lang := dominant_language lang_counts
      let test_count := (files.filter is_test_path).length
      let readme_score := repo.readme_score
      let code_files := files.filter (match_dom dom_lang)
      if code_files = [] then
        some { name := repo.name, dominant_language := dom_lang,
               language_breakdown := lang_counts, code_files := 0,
               metrics := { lines := 0 }, readme_quality := readme_score,
               test_files := test_count,
               depth_score := score_repo dom_lang { lines := 0 } readme_score test_count,
               html_url := repo.html_url }
      else
        let combined := (code_files.take 120).foldl
          (fun acc path =>
            match repo.content path with
            | .error _ => acc
            | .ok code => addMetrics acc (dispatch A dom_lang code)) { lines := 0 }
        some { name := repo.name, dominant_language := dom_lang,
               language_breakdown := lang_counts,
               code_files := code_files.length,
               metrics := combined, readme_quality := readme_score,
               test_files := test_count,
               depth_score := score_repo dom_lang combined readme_score test_count,
               html_url := repo.html_url }

/-- Stable insertion into a list sorted by descending key: x goes in
front of the first element whose key is not greater, so among equal
keys the element inserted later sits behind earlier ones. -/
def insertDesc {α : Type} (key : α → Nat) (x : α) : List α → List α
  | [] => [x]
  | y :: t => if key y > key x then y :: insertDesc key x t else x :: y :: t

/-- Stable descending sort by key: the behaviour of Python
sorted(..., key=..., reverse=True), which keeps equal-key elements in
their original relative order. -/
def sortDesc {α : Type} (key : α → Nat) (l : List α) : List α :=
  l.foldr (insertDesc key) []

/-- Aggregation tail of analyse (source lines 367-373) on the collected
repo summaries: an empty collection gives score 0 with an empty list;
otherwise the top 3 of the stable descending sort by depth_score are
averaged.  Python int(sum(...) / len(top)) on at most 3 values of at
most 100 is exact float arithmetic followed by truncation, which is Nat
floor division. -/
def aggregate (summaries : List RepoSummary) : AccountDepthResult :=
  if summaries = [] then { repos := [], overall_depth_score := 0 }
  else
    let top := (sortDesc (fun r => r.depth_score) summaries).take 3
    { repos := summaries,
      overall_depth_score := (top.map (fun r => r.depth_score)).sum / top.length }

/-- Body of GitHubCodeEngine.analyse after get_repos has returned its
repository list. -/
def analyse_repos (A : CodeAnalyzers) (repos : List RepoInput) : AccountDepthResult :=
  aggregate (repos.filterMap (analyse_repo A))

/-- GitHubCodeEngine.analyse (source lines 267-373): the initial
get_repos listing runs outside any try block, so its failure propagates
to the caller; on success the per-repo loop and the aggregation run. -/
def analyse (A : CodeAnalyzers) (account : Except Unit (List RepoInput)) :
    Except Unit AccountDepthResult :=
  match account with
  | .error e => .error e
  | .ok repos => .ok (analyse_repos A repos)

/-! Spec-side formulations.  The definitions below follow the wording
of the specification and serve as the comparison side of the refinement
claims; the engine definitions above are the translation of the source. -/

/-- Spec side, tree walk: the complete list of file paths under a
sequence of entries, depth first, each directory expanded in place with
its own listing order preserved before the later siblings. -/
def filesUnderList : List FsEntry → List String
  | [] => []
  | FsEntry.file p :: rest => p :: filesUnderList rest
  | FsEntry.dir _ (Except.ok cs) :: rest => filesUnderList cs ++ filesUnderList rest
  | FsEntry.dir _ (Except.error _) :: rest => filesUnderList rest
  | FsEntry.other _ _ :: rest => filesUnderList rest

/-- Spec side, tree walk: the file paths under one entry. -/
def filesUnder (e : FsEntry) : List String := filesUnderList [e]

/-- Does every directory listing reachable from these entries succeed. -/
def entriesOk : List FsEntry → Bool
  | [] => true
  | FsEntry.file _ :: rest => entriesOk rest
  | FsEntry.dir _ (Except.error _) :: _ => false
  | FsEntry.dir _ (Except.ok cs) :: rest => entriesOk cs && entriesOk rest
  | FsEntry.other _ _ :: rest => entriesOk rest

/-- Spec side, tree walk: the path p names a plain file somewhere under
the entry (at the top or nested in successfully listed directories). -/
inductive FileIn : String → FsEntry → Prop where
  | self (p : String) : FileIn p (FsEntry.file p)
  | nested (p dp : String) (cs : List FsEntry) (e : FsEntry) :
      e ∈ cs → FileIn p e → FileIn p (FsEntry.dir dp (Except.ok cs))

/-- Spec side, classifier: first-occurrence deduplication, keeping the
order in which values first appear while scanning left to right (the
insertion order of a Python dict built by repeated increments). -/
def firstSeen (l : List String) : List String :=
  l.foldl (fun acc x => if x ∈ acc then acc else acc ++ [x]) []

/-- Spec side, aggregation: the integer-truncated mean of the 3 highest
values of the list (of all of them when fewer than 3 exist), phrased
over the bare multiset of values with a library sort. -/
def top3_mean (scores : List Nat) : Nat :=
  ((scores.insertionSort (fun a b => a ≥ b)).take 3).sum / min 3 scores.length

/-! Concrete fixtures used for instantiating the theorems. -/

/-- Analyzer oracle for concrete evaluations: every extractor returns
the all-zero metric vector. -/
def A0 : CodeAnalyzers :=
  { analyse_python := fun _ => {}, analyse_js_ts := fun _ => {},
    analyse_dart := fun _ => {}, analyse_html_css := fun _ _ => {},
    splitlines_count := fun _ => 0 }

/-- Concrete repository: one Python file at the root. -/
def repoAlpha : RepoInput :=
  { name := "alpha", listing := Except.ok (Listing.entries [FsEntry.file "a.py"]),
    readme_score := 0, content := fun _ => Except.error (), html_url := "ua" }

/-- Concrete repository: one JavaScript file at the root. -/
def repoGamma : RepoInput :=
  { name := "gamma", listing := Except.ok (Listing.entries [FsEntry.file "g.js"]),
    readme_score := 0, content := fun _ => Except.error (), html_url := "ug" }

/-- Concrete repository whose tree walk fails in the middle of the
traversal: the root listing succeeds, the query for the nested
directory raises. -/
def repoBeta : RepoInput :=
  { name := "beta",
    listing := Except.ok (Listing.entries
      [FsEntry.file "b1.py", FsEntry.dir "sub" (Except.error ())]),
    readme_score := 0, content := fun _ => Except.error (), html_url := "ub" }

/-- Concrete repository whose single path contains test only inside a
larger word. -/
def repoKappa : RepoInput :=
  { name := "kappa",
    listing := Except.ok (Listing.entries [FsEntry.file "contest.py"]),
    readme_score := 0, content := fun _ => Except.error (), html_url := "uk" }

/-- Concrete directory tree with nesting and a skipped entry type. -/
def demoTree : List FsEntry :=
  [FsEntry.file "a",
   FsEntry.dir "d" (Except.ok
     [FsEntry.file "d/x",
      FsEntry.dir "d/e" (Except.ok [FsEntry.file "d/e/y"]),
      FsEntry.other "symlink" "d/s"]),
   FsEntry.file "b"]

/-- Combined metric vector of the scenario of claim C4: 700 lines, 6
function defs, 3 classes, 6 imports, 1 framework reference, 1 database
reference, 3 try blocks, c comment lines. -/
def pyMetrics (c : Nat) : Metrics :=
  { lines := 700, functions := 6, classes := 3, imports := 6,
    frameworks := 1, databases := 1, try_blocks := 3, comment_lines := c }

/-- Summary the engine produces for repoAlpha. -/
def sumAlpha : RepoSummary :=
  { name := "alpha", dominant_language := "Python",
    language_breakdown := [("Python", 1)], code_files := 1,
    metrics := { lines := 0 }, readme_quality := 0, test_files := 0,
    depth_score := 20, html_url := "ua" }

/-- Summary the engine produces for repoKappa. -/
def sumKappa : RepoSummary :=
  { name := "kappa", dominant_language := "Python",
    language_breakdown := [("Python", 1)], code_files := 1,
    metrics := { lines := 0 }, readme_quality := 0, test_files := 1,
    depth_score := 25, html_url := "uk" }

/-! Helper lemmas about the scorer. -/

theorem score_repo_le_100 (d : String) (m : Metrics) (r t : Nat) :
    score_repo d m r t ≤ 100 :=
  Nat.min_le_left 100 _

theorem score_repo_raw_ge_20 (d : String) (m : Metrics) (r t : Nat) :
    20 ≤ score_repo_raw d m r t := by
  unfold score_repo_raw
  omega

theorem score_repo_ge_20 (d : String) (m : Metrics) (r t : Nat) :
    20 ≤ score_repo d m r t :=
  le_min (by omega) (score_repo_raw_ge_20 d m r t)

theorem python_bonus_lines_le (m : Metrics) (l1 l2 : Nat) :
    python_bonus { m with lines := l1 } ≤ python_bonus { m with lines := l2 } + 10 := by
  dsimp only [python_bonus]
  have h1 : (if m.comment_lines ≥ max 8 (l1 * 5 / 100) then 10 else 0) ≤ 10 := by
    split <;> omega
  omega

theorem js_ts_bonus_lines_le (m : Metrics) (l1 l2 : Nat) :
    js_ts_bonus { m with lines := l1 } ≤ js_ts_bonus { m with lines := l2 } + 10 := by
  dsimp only [js_ts_bonus]
  have h1 : (if m.comment_lines ≥ max 6 (l1 * 4 / 100) then 5 else 0) ≤ 5 := by
    split <;> omega
  omega

theorem markup_bonus_lines_le (m : Metrics) (l1 l2 : Nat) (h : l1 ≤ l2) :
    markup_bonus { m with lines := l1 } ≤ markup_bonus { m with lines := l2 } + 10 := by
  dsimp only [markup_bonus]
  have h1 : (if l1 > 200 then 10 else 0) ≤ (if l2 > 200 then 10 else 0) := by
    split_ifs <;> omega
  omega

theorem lang_bonus_lines_le (d : String) (m : Metrics) (l1 l2 : Nat) (h : l1 ≤ l2) :
    lang_bonus d { m with lines := l1 } ≤ lang_bonus d { m with lines := l2 } + 10 := by
  unfold lang_bonus
  split_ifs
  · exact python_bonus_lines_le m l1 l2
  · exact js_ts_bonus_lines_le m l1 l2
  · dsimp only [dart_bonus]; omega
  · exact markup_bonus_lines_le m l1 l2 h
  · omega

theorem size_bonus_cross {l1 l2 : Nat}
    (h : (l1 ≤ 150 ∧ 150 < l2) ∨ (l1 ≤ 600 ∧ 600 < l2) ∨ (l1 ≤ 1500 ∧ 1500 < l2)) :
    ((if l1 > 150 then 10 else 0) + (if l1 > 600 then 10 else 0)
      + (if l1 > 1500 then 10 else 0)) + 10
    ≤ (if l2 > 150 then 10 else 0) + (if l2 > 600 then 10 else 0)
      + (if l2 > 1500 then 10 else 0) := by
  rcases h with ⟨h1, h2⟩ | ⟨h1, h2⟩ | ⟨h1, h2⟩ <;> split_ifs <;> omega

theorem score_repo_raw_cross (d : String) (m : Metrics) (r t l1 l2 : Nat)
    (h : (l1 ≤ 150 ∧ 150 < l2) ∨ (l1 ≤ 600 ∧ 600 < l2) ∨ (l1 ≤ 1500 ∧ 1500 < l2)) :
    score_repo_raw d { m with lines := l1 } r t
      ≤ score_repo_raw d { m with lines := l2 } r t := by
  have hle : l1 ≤ l2 := by omega
  have hsize := size_bonus_cross h
  have hlang := lang_bonus_lines_le d m l1 l2 hle
  dsimp only [score_repo_raw]
  omega

/-! Helper lemmas about the stable descending sort and the mean. -/

theorem insertDesc_perm {α : Type} (key : α → Nat) (x : α) (l : List α) :
    List.Perm (insertDesc key x l) (x :: l) := by
  induction l with
  | nil => simp [insertDesc]
  | cons y t ih =>
    dsimp only [insertDesc]
    split
    · exact ((ih.cons y).trans (List.Perm.swap x y t))
    · exact List.Perm.refl _

theorem sortDesc_perm {α : Type} (key : α → Nat) (l : List α) :
    List.Perm (sortDesc key l) l := by
  induction l with
  | nil => simp [sortDesc]
  | cons x t ih =>
    have : sortDesc key (x :: t) = insertDesc key x (sortDesc key t) := rfl
    rw [this]
    exact (insertDesc_perm key x (sortDesc key t)).trans (ih.cons x)

theorem length_sortDesc {α : Type} (key : α → Nat) (l : List α) :
    (sortDesc key l).length = l.length :=
  (sortDesc_perm key l).length_eq

theorem mem_sortDesc {α : Type} (key : α → Nat) (l : List α) (a : α) :
    a ∈ sortDesc key l ↔ a ∈ l :=
  (sortDesc_perm key l).mem_iff

theorem map_insertDesc {α : Type} (key : α → Nat) (x : α) (l : List α) :
    (insertDesc key x l).map key = insertDesc id (key x) (l.map key) := by
  induction l with
  | nil => simp [insertDesc]
  | cons y t ih =>
    dsimp only [insertDesc, List.map_cons, id]
    split_ifs
    · simp [ih]
    · rfl

theorem map_sortDesc {α : Type} (key : α → Nat) (l : List α) :
    (sortDesc key l).map key = sortDesc id (l.map key) := by
  induction l with
  | nil => rfl
  | cons x t ih =>
    have h1 : sortDesc key (x :: t) = insertDesc key x (sortDesc key t) := rfl
    have h2 : sortDesc id (List.map key (x :: t))
        = insertDesc id (key x) (sortDesc id (t.map key)) := rfl
    rw [h1, h2, map_insertDesc, ih]

theorem sorted_insertDesc (x : Nat) (l : List Nat)
    (h : List.Sorted (fun a b => a ≥ b) l) :
    List.Sorted (fun a b => a ≥ b) (insertDesc id x l) := by
  induction l with
  | nil => simp [insertDesc]
  | cons y t ih =>
    dsimp only [insertDesc, id] at *
    rcases List.sorted_cons.mp h with ⟨hy, ht⟩
    split_ifs with hgt
    · refine List.sorted_cons.mpr ⟨?_, ih ht⟩
      intro b hb
      have hperm := insertDesc_perm id x t
      have hb2 : b ∈ x :: t := by
        exact hperm.mem_iff.mp (by simpa using hb)
      rcases List.mem_cons.mp hb2 with rfl | hbt
      · omega
      · exact hy b hbt
    · refine List.sorted_cons.mpr ⟨?_, h⟩
      intro b hb
      rcases List.mem_cons.mp hb with rfl | hbt
      · omega
      · have := hy b hbt
        omega

theorem sorted_sortDesc (l : List Nat) :
    List.Sorted (fun a b => a ≥ b) (sortDesc id l) := by
  induction l with
  | nil => simp [sortDesc]
  | cons x t ih => exact sorted_insertDesc x (sortDesc id t) ih

/-- The stable descending sort of a list of naturals agrees with the
library insertion sort by the greater-or-equal relation: both are
descending-sorted permutations of the same list. -/
theorem sortDesc_eq_insertionSort (l : List Nat) :
    sortDesc id l = l.insertionSort (fun a b => a ≥ b) := by
  haveI : IsTotal Nat (fun a b => a ≥ b) := ⟨fun a b => le_total b a⟩
  haveI : IsTrans Nat (fun a b => a ≥ b) := ⟨fun _ _ _ h1 h2 => le_trans h2 h1⟩
  haveI : IsAntisymm Nat (fun a b => a ≥ b) := ⟨fun _ _ h1 h2 => le_antisymm h2 h1⟩
  refine List.eq_of_perm_of_sorted ?_ (sorted_sortDesc l) ?_
  · exact (sortDesc_perm id l).trans (List.perm_insertionSort _ l).symm
  · exact List.sorted_insertionSort _ l

theorem sum_le_length_mul (xs : List Nat) (c : Nat) (h : ∀ x ∈ xs, x ≤ c) :
    xs.sum ≤ xs.length * c := by
  induction xs with
  | nil => simp
  | cons y u ih =>
    have hy : y ≤ c := h y (by simp)
    have hu : u.sum ≤ u.length * c := ih (fun x hx => h x (by simp [hx]))
    simp only [List.sum_cons, List.length_cons]
    calc y + u.sum ≤ c + u.length * c := by omega
    _ = (u.length + 1) * c := by ring

theorem length_mul_le_sum (xs : List Nat) (c : Nat) (h : ∀ x ∈ xs, c ≤ x) :
    xs.length * c ≤ xs.sum := by
  induction xs with
  | nil => simp
  | cons y u ih =>
    have hy : c ≤ y := h y (by simp)
    have hu : u.length * c ≤ u.sum := ih (fun x hx => h x (by simp [hx]))
    simp only [List.sum_cons, List.length_cons]
    calc (u.length + 1) * c = c + u.length * c := by ring
    _ ≤ y + u.sum := by omega

theorem sum_div_length_le (xs : List Nat) (c : Nat) (h : ∀ x ∈ xs, x ≤ c) :
    xs.sum / xs.length ≤ c := by
  cases xs with
  | nil => simp
  | cons y u =>
    have h1 := sum_le_length_mul (y :: u) c h
    have hlen : 0 < (y :: u).length := by simp
    calc (y :: u).sum / (y :: u).length
        ≤ ((y :: u).length * c) / (y :: u).length := Nat.div_le_div_right h1
    _ = c := Nat.mul_div_cancel_left c hlen

theorem le_sum_div_length (xs : List Nat) (c : Nat) (hne : xs ≠ [])
    (h : ∀ x ∈ xs, c ≤ x) : c ≤ xs.sum / xs.length := by
  have hlen : 0 < xs.length := List.length_pos.mpr hne
  refine (Nat.le_div_iff_mul_le hlen).mpr ?_
  have := length_mul_le_sum xs c h
  calc c * xs.length = xs.length * c := Nat.mul_comm c xs.length
  _ ≤ xs.sum := this

/-! Helper lemmas about the per-repository loop and the aggregation. -/

theorem analyse_repo_depth_eq (A : CodeAnalyzers) (repo : RepoInput) (s : RepoSummary)
    (h : analyse_repo A repo = some s) :
    ∃ d m r t, s.depth_score = score_repo d m r t := by
  simp only [analyse_repo] at h
  split at h
  · exact absurd h (by simp)
  · split at h
    · exact absurd h (by simp)
    · split at h <;>
      · rw [Option.some.injEq] at h
        subst h
        exact ⟨_, _, _, _, rfl⟩

theorem analyse_repo_depth_bounds (A : CodeAnalyzers) (repo : RepoInput) (s : RepoSummary)
    (h : analyse_repo A repo = some s) :
    20 ≤ s.depth_score ∧ s.depth_score ≤ 100 := by
  obtain ⟨d, m, r, t, he⟩ := analyse_repo_depth_eq A repo s h
  rw [he]
  exact ⟨score_repo_ge_20 d m r t, score_repo_le_100 d m r t⟩

theorem aggregate_overall_le (summaries : List RepoSummary)
    (h : ∀ s ∈ summaries, s.depth_score ≤ 100) :
    (aggregate summaries).overall_depth_score ≤ 100 := by
  unfold aggregate
  split
  · simp
  · dsimp only
    rw [← List.length_map _ (fun r : RepoSummary => r.depth_score)]
    apply sum_div_length_le
    intro x hx
    obtain ⟨s, hs, rfl⟩ := List.mem_map.mp hx
    have hs2 : s ∈ sortDesc (fun r : RepoSummary => r.depth_score) summaries :=
      List.mem_of_mem_take hs
    exact h s ((mem_sortDesc _ summaries s).mp hs2)

theorem aggregate_overall_ge (summaries : List RepoSummary) (hne : summaries ≠ [])
    (h : ∀ s ∈ summaries, 20 ≤ s.depth_score) :
    20 ≤ (aggregate summaries).overall_depth_score := by
  unfold aggregate
  split
  · exact absurd (by assumption) hne
  · dsimp only
    rw [← List.length_map _ (fun r : RepoSummary => r.depth_score)]
    apply le_sum_div_length
    · have h1 : (sortDesc (fun r : RepoSummary => r.depth_score) summaries).length
          = summaries.length := length_sortDesc _ summaries
      have h2 : summaries.length ≠ 0 := by
        intro h0
        exact hne (List.length_eq_zero.mp h0)
      simp only [ne_eq, List.map_eq_nil_iff]
      intro htake
      have := List.length_take 3 (sortDesc (fun r : RepoSummary => r.depth_score) summaries)
      rw [htake] at this
      simp only [List.length_nil] at this
      omega
    · intro x hx
      obtain ⟨s, hs, rfl⟩ := List.mem_map.mp hx
      have hs2 : s ∈ sortDesc (fun r : RepoSummary => r.depth_score) summaries :=
        List.mem_of_mem_take hs
      exact h s ((mem_sortDesc _ summaries s).mp hs2)

theorem filterMap_summary_bounds (A : CodeAnalyzers) (repos : List RepoInput)
    (s : RepoSummary) (hs : s ∈ repos.filterMap (analyse_repo A)) :
    20 ≤ s.depth_score ∧ s.depth_score ≤ 100 := by
  obtain ⟨repo, _, hr⟩ := List.mem_filterMap.mp hs
  exact analyse_repo_depth_bounds A repo s hr

/-! Helper lemmas about the language classifier. -/

theorem foldl_max_first (x : String × Nat) (rest : List (String × Nat)) :
    ∃ pre post,
      x :: rest = pre
          ++ (rest.foldl (fun best kv => if kv.2 > best.2 then kv else best) x) :: post ∧
      (∀ kv ∈ x :: rest,
        kv.2 ≤ (rest.foldl (fun best kv => if kv.2 > best.2 then kv else best) x).2) ∧
      (∀ kv ∈ pre,
        kv.2 < (rest.foldl (fun best kv => if kv.2 > best.2 then kv else best) x).2) := by
  induction rest generalizing x with
  | nil => exact ⟨[], [], rfl, by simp, by simp⟩
  | cons y t ih =>
    by_cases hc : y.2 > x.2
    · obtain ⟨pre, post, heq, hmax, hpre⟩ := ih y
      have hfold : (y :: t).foldl (fun best kv => if kv.2 > best.2 then kv else best) x
          = t.foldl (fun best kv => if kv.2 > best.2 then kv else best) y := by
        simp [List.foldl_cons, hc]
      rw [hfold]
      have hyr := hmax y (by simp)
      refine ⟨x :: pre, post, ?_, ?_, ?_⟩
      · simp only [List.cons_append]
        rw [← heq]
      · intro kv hkv
        rcases List.mem_cons.mp hkv with rfl | h2
        · omega
        · exact hmax kv h2
      · intro kv hkv
        rcases List.mem_cons.mp hkv with rfl | h2
        · omega
        · exact hpre kv h2
    · obtain ⟨pre, post, heq, hmax, hpre⟩ := ih x
      have hfold : (y :: t).foldl (fun best kv => if kv.2 > best.2 then kv else best) x
          = t.foldl (fun best kv => if kv.2 > best.2 then kv else best) x := by
        simp [List.foldl_cons, hc]
      rw [hfold]
      have hxr := hmax x (by simp)
      cases pre with
      | nil =>
        simp only [List.nil_append, List.cons.injEq] at heq
        obtain ⟨hx, ht⟩ := heq
        refine ⟨[], y :: t, ?_, ?_, by simp⟩
        · rw [List.nil_append, ← hx]
        · intro kv hkv
          rcases List.mem_cons.mp hkv with rfl | h2
          · omega
          · rcases List.mem_cons.mp h2 with rfl | h3
            · rw [← hx]; omega
            · exact hmax kv (List.mem_cons_of_mem x h3)
      | cons a pre2 =>
        simp only [List.cons_append, List.cons.injEq] at heq
        obtain ⟨hx, ht⟩ := heq
        have hax : a.2 < (t.foldl (fun best kv => if kv.2 > best.2 then kv else best) x).2 :=
          hpre a (by simp)
        rw [← hx] at hax
        refine ⟨x :: y :: pre2, post, ?_, ?_, ?_⟩
        · simp only [List.cons_append]
          rw [← ht]
        · intro kv hkv
          rcases List.mem_cons.mp hkv with rfl | h2
          · omega
          · rcases List.mem_cons.mp h2 with rfl | h3
            · omega
            · exact hmax kv (List.mem_cons_of_mem x h3)
        · intro kv hkv
          rcases List.mem_cons.mp hkv with rfl | h2
          · omega
          · rcases List.mem_cons.mp h2 with rfl | h3
            · omega
            · exact hpre kv (List.mem_cons_of_mem a h3)

/-- The dominant language is carried by the first entry of the
histogram that attains the maximal count: the histogram splits around
an entry of maximal count whose predecessors all have strictly smaller
counts. -/
theorem dominant_first_max (h : List (String × Nat)) (hne : h ≠ []) :
    ∃ pre r post, h = pre ++ r :: post ∧ r.1 = dominant_language h ∧
      (∀ kv ∈ h, kv.2 ≤ r.2) ∧ (∀ kv ∈ pre, kv.2 < r.2) := by
  cases h with
  | nil => exact absurd rfl hne
  | cons x rest =>
    obtain ⟨pre, post, heq, hmax, hpre⟩ := foldl_max_first x rest
    exact ⟨pre, _, post, heq, rfl, hmax, hpre⟩

theorem bump_keys (h : List (String × Nat)) (lang : String) :
    (bump h lang).map Prod.fst =
      if lang ∈ h.map Prod.fst then h.map Prod.fst
      else h.map Prod.fst ++ [lang] := by
  induction h with
  | nil => simp [bump]
  | cons a t ih =>
    obtain ⟨l, c⟩ := a
    dsimp only [bump]
    by_cases h1 : l = lang
    · subst h1
      simp
    · have h2 : ¬ lang = l := fun he => h1 he.symm
      rw [if_neg h1]
      by_cases h3 : lang ∈ t.map Prod.fst
      · simp [List.map_cons, ih, h3, List.mem_cons, h2]
      · simp [List.map_cons, ih, h3, List.mem_cons, h2]

theorem detect_foldl (files : List String) (h : List (String × Nat)) :
    files.foldl
      (fun h p =>
        match classify p with
        | some lang => bump h lang
        | none => h) h
      = (files.filterMap classify).foldl bump h := by
  induction files generalizing h with
  | nil => rfl
  | cons p t ih =>
    simp only [List.foldl_cons, List.filterMap_cons]
    cases hc : classify p with
    | none => simp only [hc]; exact ih h
    | some lang => simp only [hc, List.foldl_cons]; exact ih (bump h lang)

theorem foldl_bump_keys (langs : List String) (h : List (String × Nat)) :
    ((langs.foldl bump h).map Prod.fst)
      = langs.foldl (fun acc x => if x ∈ acc then acc else acc ++ [x])
          (h.map Prod.fst) := by
  induction langs generalizing h with
  | nil => rfl
  | cons x t ih =>
    simp only [List.foldl_cons]
    rw [ih (bump h x), bump_keys]

/-- The histogram keys of detect_languages are the classified languages
of the scanned files, in first-occurrence order. -/
theorem detect_keys (files : List String) :
    (detect_languages files).map Prod.fst = firstSeen (files.filterMap classify) := by
  unfold detect_languages firstSeen
  rw [detect_foldl files [], foldl_bump_keys]
  rfl

theorem bump_sum (h : List (String × Nat)) (lang : String) :
    ((bump h lang).map Prod.snd).sum = (h.map Prod.snd).sum + 1 := by
  induction h with
  | nil => simp [bump]
  | cons a t ih =>
    obtain ⟨l, c⟩ := a
    dsimp only [bump]
    split_ifs with h1
    · simp only [List.map_cons, List.sum_cons]
      omega
    · simp only [List.map_cons, List.sum_cons, ih]
      omega

theorem detect_foldl_sum (files : List String) (h : List (String × Nat)) :
    (((files.foldl
        (fun h p =>
          match classify p with
          | some lang => bump h lang
          | none => h) h).map Prod.snd)).sum
      = ((h.map Prod.snd).sum)
        + (files.filter (fun p => (classify p).isSome)).length := by
  induction files generalizing h with
  | nil => simp
  | cons p t ih =>
    simp only [List.foldl_cons, List.filter_cons]
    cases hc : classify p with
    | none =>
      simp only [hc, Option.isSome_none, Bool.false_eq_true, if_false]
      exact ih h
    | some lang =>
      simp only [hc, Option.isSome_some, if_true, List.length_cons]
      rw [ih (bump h lang), bump_sum]
      omega

/-- The histogram values of detect_languages sum to the number of files
the extension table classifies. -/
theorem detect_values_sum (files : List String) :
    ((detect_languages files).map Prod.snd).sum
      = (files.filter (fun p => (classify p).isSome)).length := by
  unfold detect_languages
  rw [detect_foldl_sum]
  simp

theorem find?_split {α : Type} (q : α → Bool) (pre : List α) (x : α) (post : List α)
    (hx : q x = true) (hpre : ∀ e ∈ pre, q e = false) :
    List.find? q (pre ++ x :: post) = some x := by
  induction pre with
  | nil => simp [List.find?_cons_of_pos, hx]
  | cons a t ih =>
    have ha : q a = false := hpre a (by simp)
    simp only [List.cons_append]
    rw [List.find?_cons_of_neg _ (by simp [ha])]
    exact ih (fun e he => hpre e (by simp [he]))

/-- First-match-wins: when the extension table splits into a prefix
with no matching extension followed by a matching entry, classification
returns the language of that entry. -/
theorem classify_first_match (p : String) (pre : List (String × String))
    (ext lang : String) (post : List (String × String))
    (htab : EXT_LANG = pre ++ (ext, lang) :: post)
    (hmatch : strEndsWith (strLower p) ext = true)
    (hpre : ∀ e ∈ pre, strEndsWith (strLower p) e.1 = false) :
    classify p = some lang := by
  unfold classify
  rw [htab, find?_split (fun el => strEndsWith (strLower p) el.1) pre (ext, lang) post
    hmatch hpre]
  rfl

theorem classify_eq_none (p : String)
    (h : ∀ e ∈ EXT_LANG, strEndsWith (strLower p) e.1 = false) :
    classify p = none := by
  unfold classify
  rw [List.find?_eq_none.mpr (fun x hx => by simp [h x hx])]
  rfl

/-! Helper lemmas about the tree walk. -/

theorem FileIn_file_iff (q p : String) : FileIn q (FsEntry.file p) ↔ q = p := by
  constructor
  · intro h
    cases h
    rfl
  · intro h
    subst h
    exact FileIn.self q

theorem FileIn_dir_iff (q d : String) (cs : List FsEntry) :
    FileIn q (FsEntry.dir d (Except.ok cs)) ↔ ∃ e ∈ cs, FileIn q e := by
  constructor
  · intro h
    cases h with
    | nested _ _ e he hf => exact ⟨e, he, hf⟩
  · rintro ⟨e, he, hf⟩
    exact FileIn.nested q d cs e he hf

theorem FileIn_dir_error (q d : String) (u : Unit) :
    ¬ FileIn q (FsEntry.dir d (Except.error u)) := by
  intro h
  cases h

theorem FileIn_other (q ty p : String) : ¬ FileIn q (FsEntry.other ty p) := by
  intro h
  cases h

theorem walkEntries_ok (items : List FsEntry) :
    entriesOk items = true → walkEntries items = Except.ok (filesUnderList items) := by
  induction items using walkEntries.induct <;> intro hok <;>
    simp_all [walkEntries, entriesOk, filesUnderList]

theorem mem_filesUnderList (q : String) (items : List FsEntry) :
    q ∈ filesUnderList items ↔ ∃ e ∈ items, FileIn q e := by
  induction items using filesUnderList.induct <;>
    simp_all [filesUnderList, FileIn_file_iff, FileIn_dir_iff, FileIn_dir_error,
      FileIn_other]

theorem filesUnderList_flatMap (items : List FsEntry) :
    filesUnderList items = items.flatMap filesUnder := by
  induction items using filesUnderList.induct <;>
    simp_all [filesUnderList, filesUnder]

/-! Helper lemmas about the substring test. -/

theorem containsSub_iff (hay needle : List Char) :
    containsSub hay needle = true ↔ needle <:+: hay := by
  induction hay with
  | nil =>
    simp only [containsSub, List.isEmpty_iff]
    constructor
    · intro h
      subst h
      exact List.infix_rfl
    · intro h
      exact List.eq_nil_of_infix_nil h
  | cons c t ih =>
    simp only [containsSub, Bool.or_eq_true, List.isPrefixOf_iff_prefix, ih,
      List.infix_cons_iff]

theorem strContains_iff (s sub : String) :
    strContains s sub = true ↔ sub.data <:+: s.data :=
  containsSub_iff s.data sub.data

theorem tests_sub_test (s : String) :
    strContains s "tests/" = true → strContains s "test" = true := by
  intro h
  rw [strContains_iff] at h ⊢
  have hpre : ("test".data) <+: ("tests/".data) := by
    rw [← List.isPrefixOf_iff_prefix]
    decide
  exact hpre.isInfix.trans h

/-- The second disjunct of the test-path predicate is subsumed by the
first: every path containing tests/ also contains test. -/
theorem is_test_path_eq (p : String) :
    is_test_path p = strContains (strLower p) "test" := by
  unfold is_test_path
  cases hA : strContains (strLower p) "test" with
  | true => simp
  | false =>
    cases hB : strContains (strLower p) "tests/" with
    | true =>
      have := tests_sub_test (strLower p) hB
      rw [hA] at this
      exact absurd this (by simp)
    | false => simp

/-! Helper lemma about the failure path of the per-repository loop. -/

theorem analyse_repo_fail (A : CodeAnalyzers) (repo : RepoInput) (e : Unit)
    (h : list_files repo.listing = Except.error e) :
    analyse_repo A repo = none := by
  unfold analyse_repo
  rw [h]

/-! Claim theorems. -/

/-- C2: for every valid input, every per-repository depth score that
score_repo returns is an integer in the range 0 to 100 (non-negativity
is the Nat embedding of the all-additive scorer), and the overall depth
score that analyse returns on a successful listing is in 0 to 100. -/
theorem C2_score_bounds :
    (∀ d m r t, score_repo d m r t ≤ 100) ∧
    (∀ A repos, (analyse_repos A repos).overall_depth_score ≤ 100) :=
  ⟨score_repo_le_100,
   fun A repos =>
    aggregate_overall_le _ (fun s hs => (filterMap_summary_bounds A repos s hs).2)⟩

/-- C4: the scenario repository (Python dominant, 700 lines, 6 function
defs, 3 classes, 6 imports, 1 framework, 1 database, 3 try blocks,
comment lines meeting the size-relative floor, readme score 15, 5 test
files) scores exactly 100, and the additive sum of bonuses exceeds 100
before the final clamp. -/
theorem C4_clamped_scenario (c : Nat) (h : max 8 (700 * 5 / 100) ≤ c) :
    score_repo "Python" (pyMetrics c) 15 5 = 100 ∧
    100 < score_repo_raw "Python" (pyMetrics c) 15 5 := by
  have hc : (pyMetrics c).comment_lines ≥ max 8 ((pyMetrics c).lines * 5 / 100) := h
  have hb : python_bonus (pyMetrics c) = 70 := by
    unfold python_bonus
    rw [if_pos hc]
    rfl
  have hraw : score_repo_raw "Python" (pyMetrics c) 15 5 = 130 := by
    unfold score_repo_raw lang_bonus
    rw [if_pos (rfl : ("Python" : String) = "Python"), hb]
    rfl
  constructor
  · unfold score_repo
    rw [hraw]
    rfl
  · rw [hraw]
    omega

theorem C4_witness :
    max 8 (700 * 5 / 100) ≤ 35 ∧
    (score_repo "Python" (pyMetrics 35) 15 5 = 100 ∧
     100 < score_repo_raw "Python" (pyMetrics 35) 15 5) :=
  ⟨by decide, C4_clamped_scenario 35 (by decide)⟩

/-- C5: holding the dominant language, readme score, test count and
every metric other than lines fixed, increasing the lines metric past
any of the thresholds 150, 600 or 1500 never decreases the depth
score: the universal size bonus gained at the crossed threshold covers
the at-most-10-point comment bonus a larger size floor can cost. -/
theorem C5_lines_monotone (d : String) (m : Metrics) (r t l1 l2 : Nat)
    (h : (l1 ≤ 150 ∧ 150 < l2) ∨ (l1 ≤ 600 ∧ 600 < l2) ∨ (l1 ≤ 1500 ∧ 1500 < l2)) :
    score_repo d { m with lines := l1 } r t ≤ score_repo d { m with lines := l2 } r t :=
  min_le_min (le_refl 100) (score_repo_raw_cross d m r t l1 l2 h)

theorem C5_witness :
    ((100 ≤ 150 ∧ 150 < 200) ∨ (100 ≤ 600 ∧ 600 < 200) ∨ (100 ≤ 1500 ∧ 1500 < 200)) ∧
    score_repo "Python" { lines := 100 } 0 0 ≤ score_repo "Python" { lines := 200 } 0 0 :=
  ⟨Or.inl (by decide),
   C5_lines_monotone "Python" {} 0 0 100 200 (Or.inl (by decide))⟩

/-- C1: for every analysis run, if no repository records were produced
the result is the empty repository list with overall score 0; otherwise
the repository list is the full unfiltered summary list in listing
order, and the overall score is the integer-truncated mean of the 3
highest depth scores (of all of them when fewer than 3 exist); which
records carry those scores is decided stably, so the mean only depends
on the multiset of depth scores. -/
theorem C1_aggregation (A : CodeAnalyzers) (repos : List RepoInput) :
    (analyse_repos A repos).repos = repos.filterMap (analyse_repo A) ∧
    (analyse_repos A repos).overall_depth_score =
      (if repos.filterMap (analyse_repo A) = [] then 0
       else top3_mean ((repos.filterMap (analyse_repo A)).map
         (fun r => r.depth_score))) := by
  unfold analyse_repos aggregate
  by_cases hemp : repos.filterMap (analyse_repo A) = []
  · rw [if_pos hemp, if_pos hemp]
    exact ⟨hemp.symm, rfl⟩
  · rw [if_neg hemp, if_neg hemp]
    refine ⟨rfl, ?_⟩
    dsimp only
    unfold top3_mean
    rw [List.map_take, map_sortDesc, sortDesc_eq_insertionSort,
      List.length_take, length_sortDesc, List.length_map]

/-- C9: every depth score the engine can produce is at least 20 (the
additive scorer starts from base 20), so every produced record has its
depth score in the range 20 to 100 and a non-empty run has an overall
score of at least 20 - never in the open interval between 0 and 20. -/
theorem C9_depth_floor :
    (∀ d m r t, 20 ≤ score_repo d m r t) ∧
    (∀ A repo s, analyse_repo A repo = some s →
      20 ≤ s.depth_score ∧ s.depth_score ≤ 100) ∧
    (∀ A repos, (analyse_repos A repos).repos ≠ [] →
      20 ≤ (analyse_repos A repos).overall_depth_score) := by
  refine ⟨score_repo_ge_20, analyse_repo_depth_bounds, ?_⟩
  intro A repos hne
  by_cases hemp : repos.filterMap (analyse_repo A) = []
  · exfalso
    apply hne
    unfold analyse_repos aggregate
    rw [if_pos hemp]
  · unfold analyse_repos
    exact aggregate_overall_ge _ hemp
      (fun s hs => (filterMap_summary_bounds A repos s hs).1)

theorem C9_witness :
    (analyse_repos A0 [repoAlpha]).repos ≠ [] ∧
    (analyse_repo A0 repoAlpha = some sumAlpha ∧
      20 ≤ sumAlpha.depth_score ∧ sumAlpha.depth_score ≤ 100) ∧
    20 ≤ (analyse_repos A0 [repoAlpha]).overall_depth_score := by
  have h1 : list_files repoAlpha.listing = Except.ok ["a.py"] := by
    simp [repoAlpha, list_files, walkEntries]
  have h2 : analyse_repo A0 repoAlpha = some sumAlpha := by
    unfold analyse_repo
    rw [h1]
    rfl
  have h3 : [repoAlpha].filterMap (analyse_repo A0) = [sumAlpha] := by
    rw [List.filterMap_cons, h2]
    rfl
  have h4 : analyse_repos A0 [repoAlpha] = { repos := [sumAlpha], overall_depth_score := 20 } := by
    unfold analyse_repos
    rw [h3]
    rfl
  refine ⟨by rw [h4]; simp, ⟨h2, C9_depth_floor.2.1 A0 repoAlpha sumAlpha h2⟩, ?_⟩
  exact C9_depth_floor.2.2 A0 [repoAlpha] (by rw [h4]; simp)

/-- C3: an empty histogram yields the sentinel Unknown; a non-empty
histogram yields the entry with the maximal count, ties resolved to the
entry sitting earliest in histogram order (every earlier entry has a
strictly smaller count); and histogram order is first-seen insertion
order: the keys of the histogram are the classified languages of the
files in the order of their first occurrence during the scan. -/
theorem C3_dominant_language (h : List (String × Nat)) (files : List String)
    (hne : h ≠ []) :
    dominant_language ([] : List (String × Nat)) = "Unknown" ∧
    (∃ pre r post, h = pre ++ r :: post ∧ r.1 = dominant_language h ∧
      (∀ kv ∈ h, kv.2 ≤ r.2) ∧ (∀ kv ∈ pre, kv.2 < r.2)) ∧
    (detect_languages files).map Prod.fst = firstSeen (files.filterMap classify) :=
  ⟨rfl, dominant_first_max h hne, detect_keys files⟩

theorem C3_witness :
    ([("Python", 2), ("JavaScript", 2), ("CSS", 3)] : List (String × Nat)) ≠ [] ∧
    dominant_language [("Python", 2), ("JavaScript", 2), ("CSS", 3)] = "CSS" ∧
    dominant_language [("Python", 2), ("JavaScript", 2)] = "Python" ∧
    (∃ pre r post,
      ([("Python", 2), ("JavaScript", 2), ("CSS", 3)] : List (String × Nat))
          = pre ++ r :: post ∧
      r.1 = dominant_language [("Python", 2), ("JavaScript", 2), ("CSS", 3)] ∧
      (∀ kv ∈ ([("Python", 2), ("JavaScript", 2), ("CSS", 3)] : List (String × Nat)),
        kv.2 ≤ r.2) ∧
      (∀ kv ∈ pre, kv.2 < r.2)) ∧
    (detect_languages ["a.py", "b.js", "c.py"]).map Prod.fst
      = firstSeen (["a.py", "b.js", "c.py"].filterMap classify) :=
  ⟨by decide, by decide, by decide,
   (C3_dominant_language [("Python", 2), ("JavaScript", 2), ("CSS", 3)]
     ["a.py", "b.js", "c.py"] (by decide)).2.1,
   (C3_dominant_language [("Python", 2), ("JavaScript", 2), ("CSS", 3)]
     ["a.py", "b.js", "c.py"] (by decide)).2.2⟩

/-- C8: classification attributes a path to the first matching entry in
extension-table order: when the table splits into a prefix of entries
whose extensions do not match followed by a matching entry, the result
is that entry, and a path matching nothing is excluded; consequently
the histogram values sum to the number of classified files rather than
to the total file count. -/
theorem C8_first_match :
    (∀ p pre ext lang post,
      EXT_LANG = pre ++ (ext, lang) :: post →
      strEndsWith (strLower p) ext = true →
      (∀ e ∈ pre, strEndsWith (strLower p) e.1 = false) →
      classify p = some lang) ∧
    (∀ p, (∀ e ∈ EXT_LANG, strEndsWith (strLower p) e.1 = false) →
      classify p = none) ∧
    (∀ files, ((detect_languages files).map Prod.snd).sum
      = (files.filter (fun p => (classify p).isSome)).length) :=
  ⟨classify_first_match, classify_eq_none, detect_values_sum⟩

theorem C8_witness :
    (EXT_LANG = [] ++ (".py", "Python") :: EXT_LANG.tail ∧
      strEndsWith (strLower "Pkg.Mod.PY") ".py" = true ∧
      classify "Pkg.Mod.PY" = some "Python") ∧
    ((∀ e ∈ EXT_LANG, strEndsWith (strLower "image.png") e.1 = false) ∧
      classify "image.png" = none) ∧
    ((detect_languages ["a.py", "image.png"]).map Prod.snd).sum
      = (["a.py", "image.png"].filter (fun p => (classify p).isSome)).length :=
  ⟨⟨rfl, by decide,
    C8_first_match.1 "Pkg.Mod.PY" [] ".py" "Python" EXT_LANG.tail rfl
      (by decide) (by intro e he; exact absurd he (by simp))⟩,
   ⟨by decide, C8_first_match.2.1 "image.png" (by decide)⟩,
   C8_first_match.2.2 ["a.py", "image.png"]⟩

/-- C6: on listings whose remote queries all succeed the tree walk
returns exactly the depth-first flattening of the tree: every directory
contributes its own listing order before the walk moves to the next
sibling, the result contains precisely the file paths reachable under
the walked entries, and a single plain-file listing short-circuits to
the one-element list holding that file. -/
theorem C6_tree_walk :
    (∀ items, entriesOk items = true →
      walkEntries items = Except.ok (filesUnderList items)) ∧
    (∀ items, filesUnderList items = items.flatMap filesUnder) ∧
    (∀ q items, q ∈ filesUnderList items ↔ ∃ e ∈ items, FileIn q e) ∧
    (∀ p, list_files (Except.ok (Listing.singleFile p)) = Except.ok [p]) :=
  ⟨walkEntries_ok, filesUnderList_flatMap, mem_filesUnderList, fun _ => rfl⟩

theorem C6_witness :
    entriesOk demoTree = true ∧
    walkEntries demoTree = Except.ok (filesUnderList demoTree) ∧
    filesUnderList demoTree = ["a", "d/x", "d/e/y", "b"] := by
  have hok : entriesOk demoTree = true := by
    simp [demoTree, entriesOk]
  exact ⟨hok, C6_tree_walk.1 demoTree hok, by simp [demoTree, filesUnderList]⟩

/-- C7: a remote error during one repository tree walk (also one that
happens inside a nested subdirectory) excludes exactly that repository:
the loop body yields no summary for it and no partial file list, the
analysis result equals the result for the account without it, and
analyse fails only when the initial account-level listing fails. -/
theorem C7_walk_failure (A : CodeAnalyzers) (as bs : List RepoInput) (b : RepoInput)
    (hfail : ∃ e, list_files b.listing = Except.error e) :
    analyse_repo A b = none ∧
    analyse A (Except.ok (as ++ b :: bs)) = analyse A (Except.ok (as ++ bs)) ∧
    analyse A (Except.error ()) = Except.error () ∧
    (∀ repos, analyse A (Except.ok repos) = Except.ok (analyse_repos A repos)) := by
  obtain ⟨e, he⟩ := hfail
  have hnone := analyse_repo_fail A b e he
  refine ⟨hnone, ?_, rfl, fun _ => rfl⟩
  show Except.ok (analyse_repos A (as ++ b :: bs))
      = Except.ok (analyse_repos A (as ++ bs))
  unfold analyse_repos
  rw [List.filterMap_append, List.filterMap_append, List.filterMap_cons, hnone]

theorem C7_witness :
    (∃ e, list_files repoBeta.listing = Except.error e) ∧
    analyse_repo A0 repoBeta = none ∧
    analyse A0 (Except.ok [repoAlpha, repoBeta, repoGamma])
      = analyse A0 (Except.ok [repoAlpha, repoGamma]) := by
  have hf : ∃ e, list_files repoBeta.listing = Except.error e :=
    ⟨(), by simp [repoBeta, list_files, walkEntries]⟩
  have h := C7_walk_failure A0 [repoAlpha] [repoGamma] repoBeta hf
  exact ⟨hf, h.1, h.2.1⟩

/-- C10: the test-file count is the number of discovered paths that
contain the substring test case-insensitively anywhere in the path; the
extra tests/ disjunct of the filter is redundant, and paths such as
contest.py or latest.md count as test files. -/
theorem C10_test_substring :
    (∀ p, is_test_path p = strContains (strLower p) "test") ∧
    is_test_path "contest.py" = true ∧
    is_test_path "latest.md" = true ∧
    (∀ A repo files s, list_files repo.listing = Except.ok files →
      analyse_repo A repo = some s →
      s.test_files
        = (files.filter (fun p => strContains (strLower p) "test")).length) := by
  refine ⟨is_test_path_eq, by decide, by decide, ?_⟩
  intro A repo files s hls h
  have hfe : is_test_path = fun p => strContains (strLower p) "test" :=
    funext is_test_path_eq
  simp only [analyse_repo, hls] at h
  split at h
  · exact absurd h (by simp)
  · split at h <;>
    · rw [Option.some.injEq] at h
      subst h
      dsimp only
      rw [hfe]

theorem C10_witness :
    list_files repoKappa.listing = Except.ok ["contest.py"] ∧
    analyse_repo A0 repoKappa = some sumKappa ∧
    sumKappa.test_files = (["contest.py"].filter
      (fun p => strContains (strLower p) "test")).length := by
  have h1 : list_files repoKappa.listing = Except.ok ["contest.py"] := by
    simp [repoKappa, list_files, walkEntries]
  have h2 : analyse_repo A0 repoKappa = some sumKappa := by
    unfold analyse_repo
    rw [h1]
    rfl
  exact ⟨h1, h2, C10_test_substring.2.2.2 A0 repoKappa _ sumKappa h1 h2⟩

end Veridex
